import Mathlib

/-!
Verification development for the D2PPTXFastAPI placeholder pipeline
(`src/main.py`): shallow embedding of the placeholder extraction
(`list_text_boxes`), oracle-response validation (`validateJson`),
template rendering (`updateTemplatePlaceholders`) and the
orchestrating endpoint (`generate_ppt`), together with theorems about
the spec's claims.

Modelling conventions:
* Python strings are Lean `String`s restricted to ASCII content where the
  Python library behaviour differs outside ASCII (`str.lower`,
  `str.isdigit`, `json.dumps` with `ensure_ascii`).  `str.strip` is
  modelled by `String.trim`.
* Parsed JSON values are `JValue`; numbers are limited to integers
  (floating point is out of scope).
* Machine state touched through the filesystem is an association list
  from path to file content (`FS`); `tempfile.NamedTemporaryFile` names
  enter the model as explicit parameters, with its fresh-name contract
  appearing as a hypothesis where a theorem needs it.
* A Python exception escaping a function is modelled by `Option`
  (`none` = the call raised).  In-memory mutation of a partially
  updated `Presentation` object that is then discarded without being
  saved is unobservable, so a raising render is modelled all-or-nothing.
-/

/-! ## Python string primitives -/

/-- Python `str.strip()` (whitespace model: `Char.isWhitespace`),
written over the character list so it evaluates by kernel reduction. -/
def pyStrip (s : String) : String :=
  String.mk (((s.data.dropWhile Char.isWhitespace).reverse.dropWhile Char.isWhitespace).reverse)

/-- Python `str.isdigit()`: non-empty and every character a digit. -/
def pyIsDigit (s : String) : Bool := !s.data.isEmpty && s.data.all Char.isDigit

/-- Python `str.lower()` (ASCII model). -/
def pyLower (s : String) : String := String.mk (s.data.map Char.toLower)

/-- Python `str.startswith(pre)`. -/
def pyStartsWith (s pre : String) : Bool := pre.data.isPrefixOf s.data

/-! ## JSON values (the parsed oracle reply) -/

/-- A parsed JSON value.  Numbers are restricted to integers. -/
inductive JValue where
  | s (v : String)
  | num (n : Int)
  | bool (b : Bool)
  | null
  | arr (items : List JValue)
  | obj (fields : List (String × JValue))

/-- Hex digit for `\uXXXX` escapes, lower case as in CPython. -/
def hexDigit (n : Nat) : Char :=
  if n < 10 then Char.ofNat (48 + n) else Char.ofNat (97 + (n - 10))

/-- Four-digit hex rendering of a code point below `0x10000`. -/
def hex4 (n : Nat) : String :=
  String.mk [hexDigit (n / 4096 % 16), hexDigit (n / 256 % 16),
             hexDigit (n / 16 % 16), hexDigit (n % 16)]

/-- `json.dumps` escaping of one character (ASCII model). -/
def escChar (c : Char) : String :=
  if c = '"' then "\\\""
  else if c = '\\' then "\\\\"
  else if c = '\n' then "\\n"
  else if c = '\t' then "\\t"
  else if c = '\r' then "\\r"
  else if c = Char.ofNat 8 then "\\b"
  else if c = Char.ofNat 12 then "\\f"
  else if c.toNat < 32 then "\\u" ++ hex4 c.toNat
  else String.singleton c

/-- `json.dumps` rendering of a string literal. -/
def jsonEscape (s : String) : String :=
  "\"" ++ String.join (s.data.map escChar) ++ "\""

/-- Insert a (key, rendered value) pair into a list sorted by key
(code-point order, as Python compares `str`). -/
def insertPair (p : String × String) : List (String × String) → List (String × String)
  | [] => [p]
  | q :: rest => if p.1 < q.1 then p :: q :: rest else q :: insertPair p rest

/-- Sort (key, rendered value) pairs by key, as `sort_keys=True` orders a
dict's items.  Keys of a parsed JSON object are unique, so stability is
immaterial. -/
def sortPairsByKey : List (String × String) → List (String × String)
  | [] => []
  | p :: rest => insertPair p (sortPairsByKey rest)

/-- Render one sorted object entry, `json.dumps` default separators. -/
def renderPair (kv : String × String) : String :=
  jsonEscape kv.1 ++ ": " ++ kv.2

mutual

/-- `json.dumps(v, sort_keys=True)` on the `JValue` model. -/
def dumps : JValue → String
  | .s v => jsonEscape v
  | .num n => toString n
  | .bool b => if b then "true" else "false"
  | .null => "null"
  | .arr items => "[" ++ String.intercalate ", " (dumpsArray items) ++ "]"
  | .obj fields =>
      "\x7b" ++ String.intercalate ", "
        ((sortPairsByKey (dumpsFields fields)).map renderPair) ++ "\x7d"

/-- `json.dumps` of each array element, in order. -/
def dumpsArray : List JValue → List String
  | [] => []
  | v :: rest => dumps v :: dumpsArray rest

/-- Keys paired with the `json.dumps` of their values. -/
def dumpsFields : List (String × JValue) → List (String × String)
  | [] => []
  | (k, v) :: rest => (k, dumps v) :: dumpsFields rest

end

/-- Python `str(v)` for the scalar values that reach it in
`validateJson` (strings pass through; `None`/`True`/`False`/ints render
as in CPython).  Containers never reach this function there. -/
def pyScalarStr : JValue → String
  | .s v => v
  | .num n => toString n
  | .bool b => if b then "True" else "False"
  | .null => "None"
  | .arr _ => ""
  | .obj _ => ""

/-- Python truthiness test `not v` used by `validateJson` (empty string,
empty list, empty dict, `None`, `False`, `0` are falsy). -/
def pyFalsy : JValue → Bool
  | .s v => v == ""
  | .num n => n == 0
  | .bool b => !b
  | .null => true
  | .arr items => items.isEmpty
  | .obj fields => fields.isEmpty

/-! ## The extracted placeholder set -/

/-- The per-placeholder record built by `list_text_boxes`:
`{"type": "list", "items": ...}` or `{"type": "text", "value": ...}`. -/
inductive PInfo where
  | list (items : List String)
  | text (value : String)
deriving DecidableEq, Repr

/-! ## validateJson (src/main.py lines 275-314) -/

/-- The canonical form used for duplicate detection:
`json.dumps(v, sort_keys=True)` for dicts/lists, `str(v).strip()`
otherwise. -/
def vHash : JValue → String
  | .arr items => dumps (.arr items)
  | .obj fields => dumps (.obj fields)
  | v => pyStrip (pyScalarStr v)

/-- The key-echo test: a string value equal (strip + lower) to its key. -/
def isEcho (k : String) (v : JValue) : Bool :=
  match v with
  | .s sv => pyLower (pyStrip sv) == pyLower (pyStrip k)
  | _ => false

/-- The per-entry loop of `validateJson`, threading the `seen_values`
set (modelled as the list of hashes added so far). -/
def validateGo : List (String × JValue) → List String → Bool
  | [], _ => true
  | (k, v) :: rest, seen =>
    if pyFalsy v then false
    else if pyIsDigit k then validateGo rest seen
    else if isEcho k v then false
    else if seen.contains (vHash v) then false
    else validateGo rest (vHash v :: seen)

/-- `validateJson(cleaned_json, textBoxList)`: reject an explicit
`error` key, then a key-count mismatch, then run the value checks. -/
def validateJson (cleaned_json : List (String × JValue))
    (textBoxList : List (String × PInfo)) : Bool :=
  if cleaned_json.any (fun p => p.1 == "error") then false
  else if cleaned_json.length != textBoxList.length then false
  else validateGo cleaned_json []

/-- The hashes the loop accumulates: one per non-digit key, in order. -/
def hashList (l : List (String × JValue)) : List String :=
  (l.filter fun p => !pyIsDigit p.1).map fun p => vHash p.2

theorem hashList_nil : hashList [] = [] := rfl

theorem hashList_cons_digit (k : String) (v : JValue) (rest : List (String × JValue))
    (h : pyIsDigit k = true) : hashList ((k, v) :: rest) = hashList rest := by
  simp [hashList, h]

theorem hashList_cons_nondigit (k : String) (v : JValue) (rest : List (String × JValue))
    (h : pyIsDigit k = false) : hashList ((k, v) :: rest) = vHash v :: hashList rest := by
  simp [hashList, h]

/-- Characterization of the `validateJson` value loop: it succeeds iff no
value is falsy, no non-digit key echoes its key, and the canonical hashes
of the non-digit keys' values are pairwise distinct and disjoint from the
hashes already seen. -/
theorem validateGo_iff (l : List (String × JValue)) (seen : List String) :
    validateGo l seen = true ↔
      (∀ p ∈ l, pyFalsy p.2 = false) ∧
      (∀ p ∈ l, pyIsDigit p.1 = false → isEcho p.1 p.2 = false) ∧
      (hashList l).Nodup ∧
      (hashList l).Disjoint seen := by
  induction l generalizing seen with
  | nil => simp [validateGo, hashList, List.Disjoint]
  | cons p rest ih =>
    obtain ⟨k, v⟩ := p
    cases hf : pyFalsy v with
    | true => simp [validateGo, hf]
    | false =>
      cases hd : pyIsDigit k with
      | true =>
        rw [hashList_cons_digit k v rest hd]
        simp only [validateGo, hf, hd, if_true, if_false, Bool.false_eq_true,
          ite_false, ite_true]
        rw [ih]
        simp [List.forall_mem_cons, hf, hd]
      | false =>
        cases he : isEcho k v with
        | true =>
          simp [validateGo, hf, hd, he, List.forall_mem_cons]
        | false =>
          by_cases hm : vHash v ∈ seen
          · have hc : seen.contains (vHash v) = true := by
              simpa using hm
            rw [hashList_cons_nondigit k v rest hd]
            simp [validateGo, hf, hd, he, hc, List.disjoint_cons_left, hm]
          · have hc : seen.contains (vHash v) = false := by
              simp [hm]
            rw [hashList_cons_nondigit k v rest hd]
            simp only [validateGo, hf, hd, he, hc, Bool.false_eq_true, ite_false,
              ite_true]
            rw [ih]
            simp only [List.forall_mem_cons, List.nodup_cons,
              List.disjoint_cons_left, List.disjoint_cons_right, hf, he, hd]
            tauto

/-- Full characterization of `validateJson`. -/
theorem validateJson_iff (M : List (String × JValue)) (P : List (String × PInfo)) :
    validateJson M P = true ↔
      (∀ p ∈ M, p.1 ≠ "error") ∧
      M.length = P.length ∧
      (∀ p ∈ M, pyFalsy p.2 = false) ∧
      (∀ p ∈ M, pyIsDigit p.1 = false → isEcho p.1 p.2 = false) ∧
      (hashList M).Nodup := by
  unfold validateJson
  by_cases herr : ∃ p ∈ M, p.1 = "error"
  · have h1 : M.any (fun p => p.1 == "error") = true := by
      simp only [List.any_eq_true]
      obtain ⟨p, hp, he⟩ := herr
      exact ⟨p, hp, by simp [he]⟩
    simp only [h1, ite_true]
    apply iff_of_false
    · simp
    · rintro ⟨hA, -⟩
      obtain ⟨p, hp, he⟩ := herr
      exact hA p hp he
  · have h1 : M.any (fun p => p.1 == "error") = false := by
      simp only [List.any_eq_false]
      intro p hp
      simp only [beq_iff_eq]
      exact fun he => herr ⟨p, hp, he⟩
    simp only [h1, Bool.false_eq_true, ite_false]
    by_cases hlen : M.length = P.length
    · have h2 : (M.length != P.length) = false := by simp [hlen]
      rw [h2]
      simp only [Bool.false_eq_true, ite_false]
      rw [validateGo_iff]
      have hdisj : (hashList M).Disjoint ([] : List String) := by
        intro a _ ha
        exact absurd ha (List.not_mem_nil a)
      constructor
      · rintro ⟨hA, hB, hN, -⟩
        exact ⟨fun p hp => by
          intro he
          have := h1
          rw [List.any_eq_false] at this
          have hb := this p hp
          rw [beq_iff_eq] at hb
          exact hb he, hlen, hA, hB, hN⟩
      · rintro ⟨-, -, hA, hB, hN⟩
        exact ⟨hA, hB, hN, hdisj⟩
    · have h2 : (M.length != P.length) = true := by simp [hlen]
      rw [h2]
      simp only [ite_true]
      apply iff_of_false
      · simp
      · rintro ⟨-, hl, -⟩
        exact hlen hl 

/-! ## Slide model (python-pptx objects as the code touches them)

A run carries its text and an opaque `style` standing for all run-level
formatting the code never writes (it only ever assigns `run.text`).
A paragraph carries its runs, its indentation `level`, and whether its
`pPr` holds `a:buChar` / `a:buAutoNum` markup.  `paragraph.text` is the
concatenation of its runs' text; `shape.text` joins paragraph texts
with a newline, as python-pptx renders them. -/

structure Run where
  text : String
  style : Nat
deriving DecidableEq, Repr

structure Paragraph where
  runs : List Run
  level : Nat
  buChar : Bool
  buAutoNum : Bool
deriving DecidableEq, Repr

structure TextFrame where
  paragraphs : List Paragraph
deriving DecidableEq, Repr

/-- A slide shape: `tf = none` models `has_text_frame == False`. -/
structure Shape where
  tf : Option TextFrame
deriving DecidableEq, Repr

/-- `paragraph.text`. -/
def paraText (p : Paragraph) : String := String.join (p.runs.map Run.text)

/-- `text_frame.text`, which is also `shape.text` for text-frame shapes. -/
def tfText (tf : TextFrame) : String :=
  String.intercalate "\n" (tf.paragraphs.map paraText)

/-! ## list_text_boxes (src/main.py lines 47-66) -/

/-- The classification and payload `list_text_boxes` computes for one
qualifying shape: `list` when some paragraph is indented or starts with
the bullet glyph, with the trimmed non-empty paragraph texts as items;
otherwise `text` with the shape's trimmed text. -/
def classifyShape (tf : TextFrame) : PInfo :=
  if tf.paragraphs.any (fun p => decide (p.level > 0) || pyStartsWith (pyStrip (paraText p)) "•") then
    PInfo.list ((tf.paragraphs.map fun p => pyStrip (paraText p)).filter fun s => !(s == ""))
  else
    PInfo.text (pyStrip (tfText tf))

/-- Python dict assignment `placeholders[key] = info`: overwrite in
place when the key exists (keys are unique, so first match suffices),
else append. -/
def dictInsert : List (String × PInfo) → String → PInfo → List (String × PInfo)
  | [], k, v => [(k, v)]
  | (k0, v0) :: rest, k, v =>
    if k0 == k then (k, v) :: rest else (k0, v0) :: dictInsert rest k v

/-- The shape loop of `list_text_boxes` over one slide, threading the
`placeholders` dict. -/
def extractSlideGo (acc : List (String × PInfo)) : List Shape → List (String × PInfo)
  | [] => acc
  | sh :: rest =>
    match sh.tf with
    | none => extractSlideGo acc rest
    | some tf =>
      let key := pyStrip (tfText tf)
      if key == "" then extractSlideGo acc rest
      else extractSlideGo (dictInsert acc key (classifyShape tf)) rest

/-- The placeholder dict `list_text_boxes` builds for one slide. -/
def extractSlide (slide : List Shape) : List (String × PInfo) :=
  extractSlideGo [] slide

/-! ## Filesystem model -/

/-- Content of a file on disk, as far as the pipeline inspects it. -/
inductive FileData where
  | pptx (slides : List (List Shape))
  | image
  | blob
deriving DecidableEq, Repr

/-- The filesystem: an association list from path to content. -/
abbrev FS := List (String × FileData)

def fsLookup : FS → String → Option FileData
  | [], _ => none
  | (n, d) :: rest, name => if n == name then some d else fsLookup rest name

/-- Writing a file: overwrite in place (paths are unique, so first
match suffices), else create. -/
def fsWrite : FS → String → FileData → FS
  | [], name, d => [(name, d)]
  | (n0, d0) :: rest, name, d =>
    if n0 == name then (name, d) :: rest else (n0, d0) :: fsWrite rest name d

/-- `os.remove`. -/
def fsRemove (fs : FS) (name : String) : FS :=
  fs.filter fun p => !(p.1 == name)

/-- `list_text_boxes(pptx_path, slide_index)` reading from disk:
`none` models the exceptions of opening a missing / non-pptx file or
indexing a missing slide. -/
def list_text_boxes (fs : FS) (pptx_path : String) (slide_index : Nat) :
    Option (List (String × PInfo)) :=
  match fsLookup fs pptx_path with
  | some (.pptx slides) => (slides[slide_index]?).map extractSlide
  | _ => none

/-! ## updateTemplatePlaceholders (src/main.py lines 69-145) -/

/-- First-match association lookup, Python dict access on unique keys. -/
def lookupJ : List (String × JValue) → String → Option JValue
  | [], _ => none
  | (k, v) :: rest, key => if k == key then some v else lookupJ rest key

/-- Unwrap `{"value": ...}` (lines 77-80). -/
def unwrapValue : JValue → JValue
  | .obj fields =>
    match lookupJ fields "value" with
    | some v => v
    | none => .obj fields
  | v => v

/-- Structural list detection on the live shape (lines 82-88). -/
def isListShape (tf : TextFrame) : Bool :=
  decide (tf.paragraphs.length > 1)
    || tf.paragraphs.any (fun p => decide (p.level > 0))
    || tf.paragraphs.any Paragraph.buChar
    || tf.paragraphs.any Paragraph.buAutoNum

/-- Extract the strings of a JSON array; `none` models the `TypeError`
Python raises when a non-string meets `run.text = item` or `" ".join`. -/
def asStrings : List JValue → Option (List String)
  | [] => some []
  | JValue.s v :: rest => (asStrings rest).map (v :: ·)
  | _ :: _ => none

/-- The two coercions of lines 90-96: a string aimed at a list-like
shape becomes a one-item list; a list aimed at a plain shape is joined
with spaces. -/
def coerceValue (tf : TextFrame) (v : JValue) : Option JValue :=
  if isListShape tf then
    some (match v with
      | JValue.s s => JValue.arr [JValue.s s]
      | v => v)
  else
    match v with
    | JValue.arr items => (asStrings items).map fun ss => JValue.s (String.intercalate " " ss)
    | v => some v

/-- String branch (lines 99-103): rewrite each run whose trimmed text
equals the key. -/
def stringApply (tf : TextFrame) (key newValue : String) : TextFrame :=
  ⟨tf.paragraphs.map fun p =>
    { p with runs := p.runs.map fun r =>
        if pyStrip r.text == key then { r with text := newValue } else r }⟩

/-- None branch (lines 105-109): blank each run whose trimmed text
equals the key. -/
def nullApply (tf : TextFrame) (key : String) : TextFrame :=
  ⟨tf.paragraphs.map fun p =>
    { p with runs := p.runs.map fun r =>
        if pyStrip r.text == key then { r with text := "" } else r }⟩

/-- Assign one list item to an existing paragraph (lines 116-124):
overwrite the first run's text, blank the remaining runs; a paragraph
with no runs gets the item as its whole text (`paragraph.text = item`
installs a single fresh run). -/
def applyItemPara (p : Paragraph) (item : String) : Paragraph :=
  match p.runs with
  | [] => { p with runs := [⟨item, 0⟩] }
  | r :: rest => { p with runs := { r with text := item } :: rest.map fun r2 => { r2 with text := "" } }

/-- Blank a leftover paragraph (lines 132-138). -/
def blankParagraph (p : Paragraph) : Paragraph :=
  match p.runs with
  | [] => { p with runs := [⟨"", 0⟩] }
  | rs => { p with runs := rs.map fun r => { r with text := "" } }

/-- A paragraph appended for a surplus item (lines 126-129):
`add_paragraph()`, then `p.text = item`, then `p.level = 0`. -/
def appendedPara (item : String) : Paragraph := ⟨[⟨item, 0⟩], 0, false, false⟩

/-- The counter loop of the list branch (lines 111-138): walk existing
paragraphs pairing them with items; surplus items append new
paragraphs; leftover paragraphs are blanked. -/
def listApplyGo : List Paragraph → List String → List Paragraph
  | ps, [] => ps.map blankParagraph
  | [], item :: rest => appendedPara item :: listApplyGo [] rest
  | p :: ps, item :: rest => applyItemPara p item :: listApplyGo ps rest

/-- Dispatch on the (coerced) value's runtime type (lines 98-141):
string, `None`, list, and the silent skip of anything else. -/
def dispatchValue (tf : TextFrame) (key : String) : JValue → Option TextFrame
  | JValue.s newValue => some (stringApply tf key newValue)
  | JValue.null => some (nullApply tf key)
  | JValue.arr items => (asStrings items).map fun ss => ⟨listApplyGo tf.paragraphs ss⟩
  | _ => some tf

/-- Lines 77-141 for one matched shape: unwrap, coerce, apply. -/
def applyValueToTF (tf : TextFrame) (key : String) (raw : JValue) : Option TextFrame :=
  (coerceValue tf (unwrapValue raw)).bind (dispatchValue tf key)

/-- Lines 73-141 for one shape: skip shapes without a text frame or
whose trimmed text is not a key of `replacements`. -/
def updateShape (replacements : List (String × JValue)) (sh : Shape) : Option Shape :=
  match sh.tf with
  | none => some sh
  | some tf =>
    let originalText := pyStrip (tfText tf)
    match lookupJ replacements originalText with
    | none => some sh
    | some raw => (applyValueToTF tf originalText raw).map fun tf2 => ⟨some tf2⟩

/-- The shape loop over one slide. -/
def updateSlide (replacements : List (String × JValue)) (slide : List Shape) :
    Option (List Shape) :=
  slide.mapM (updateShape replacements)

/-- `updateTemplatePlaceholders(pptx_path, slide_index, replacements)`:
load the presentation from disk, rewrite the addressed slide, save the
result under the `NamedTemporaryFile` name `freshName` and return that
path.  `none` models a raised exception (missing file, bad slide index,
or a `TypeError` in the loop — in which case nothing is saved). -/
def updateTemplatePlaceholders (fs : FS) (pptx_path : String) (slide_index : Nat)
    (replacements : List (String × JValue)) (freshName : String) :
    Option (FS × String) :=
  match fsLookup fs pptx_path with
  | some (.pptx slides) =>
    match slides[slide_index]? with
    | some slide =>
      match updateSlide replacements slide with
      | some slide2 =>
        some (fsWrite fs freshName (.pptx (slides.set slide_index slide2)), freshName)
      | none => none
    | none => none
  | _ => none

/-! ## generate_ppt (src/main.py lines 316-428) -/

/-- What the endpoint returns on a non-raising exit: the structured
error body of a failed validation, or the public file URL. -/
inductive GenResult where
  | errJson
  | fileUrl (url : String)
deriving DecidableEq, Repr

/-- The request's external environment: the outcome of the two
downloads, the parsed oracle reply (`none` = `json.loads` raises on the
cleaned text), and the names the library picks for the three
`NamedTemporaryFile`s and the public artifact. -/
structure GenEnv where
  templateResp : Option FileData
  imageOk : Bool
  oracleReply : Option (List (String × JValue))
  tmpTemplate : String
  tmpImage : String
  tmpRender : String
  publicName : String

/-- The public path `os.path.join(GENERATED_DIR, public_filename)`. -/
def publicPath (env : GenEnv) : String := "generated_files/" ++ env.publicName

/-- The `/generate-ppt` pipeline over the filesystem model.  The first
component is `Except.error ()` when a Python exception escapes the
handler (failed download, unreadable template, unparseable oracle text,
or a render `TypeError`); the second is the filesystem at that exit. -/
def generate_ppt (env : GenEnv) (fs : FS) : Except Unit GenResult × FS :=
  match env.templateResp with
  | none => (Except.error (), fs)
  | some tdata =>
    let fs1 := fsWrite fs env.tmpTemplate tdata
    match list_text_boxes fs1 env.tmpTemplate 0 with
    | none => (Except.error (), fs1)
    | some textBoxList =>
      if env.imageOk = false then (Except.error (), fs1)
      else
        let fs2 := fsWrite fs1 env.tmpImage FileData.image
        match env.oracleReply with
        | none => (Except.error (), fs2)
        | some cleanedJson =>
          if validateJson cleanedJson textBoxList = false then
            (Except.ok GenResult.errJson, fsRemove fs2 env.tmpTemplate)
          else
            match updateTemplatePlaceholders fs2 env.tmpTemplate 0 cleanedJson env.tmpRender with
            | none => (Except.error (), fs2)
            | some (fs3, outPath) =>
              let fs4 := fsWrite fs3 (publicPath env) ((fsLookup fs3 outPath).getD FileData.blob)
              let fs5 := fsRemove (fsRemove fs4 outPath) env.tmpTemplate
              (Except.ok (GenResult.fileUrl (publicPath env)), fs5)

/-! ## Claims about validateJson -/

/-- Whether a JSON value is a Python `str`. -/
def isStrVal : JValue → Bool
  | JValue.s _ => true
  | _ => false

/-- C1 counterexample: with `P = {"error": ...}` and `M = {"error": "ok"}`
the key sets agree and all three stated conditions hold (no falsy value,
no key echo, no duplicate canonical value), yet `validateJson` rejects,
because the `error`-key check fires first. -/
theorem validateJson_errorKey_cex :
    validateJson [("error", JValue.s "ok")] [("error", PInfo.text "x")] = false ∧
    pyFalsy (JValue.s "ok") = false ∧
    pyIsDigit "error" = false ∧
    isEcho "error" (JValue.s "ok") = false ∧
    (hashList [("error", JValue.s "ok")]).Nodup := by
  refine ⟨by decide, by decide, by decide, by decide, by decide⟩

/-- C1 (amended): for key-set-equal mappings, `validateJson` accepts iff
additionally no key is the literal `error`, no value is falsy, no
non-digit key's string value echoes the key (strip + case-fold), and the
canonical hashes of the non-digit keys' values are pairwise distinct. -/
theorem validateJson_accepts_iff_amended (M : List (String × JValue))
    (P : List (String × PInfo))
    (hM : (M.map Prod.fst).Nodup) (hP : (P.map Prod.fst).Nodup)
    (hkeys : ∀ k, k ∈ M.map Prod.fst ↔ k ∈ P.map Prod.fst) :
    validateJson M P = true ↔
      ((∀ p ∈ M, p.1 ≠ "error") ∧
       (∀ p ∈ M, pyFalsy p.2 = false) ∧
       (∀ p ∈ M, pyIsDigit p.1 = false → isEcho p.1 p.2 = false) ∧
       (hashList M).Nodup) := by
  have hperm : (M.map Prod.fst).Perm (P.map Prod.fst) :=
    (List.perm_ext_iff_of_nodup hM hP).mpr hkeys
  have hlen : M.length = P.length := by
    have h := hperm.length_eq
    simpa using h
  rw [validateJson_iff]
  constructor
  · rintro ⟨h1, -, h3, h4, h5⟩
    exact ⟨h1, h3, h4, h5⟩
  · rintro ⟨h1, h3, h4, h5⟩
    exact ⟨h1, hlen, h3, h4, h5⟩

/-- Witness for the amended C1 at a concrete accepted mapping. -/
theorem validateJson_accepts_iff_amended_wit :
    validateJson [("Title", JValue.s "Q3")] [("Title", PInfo.text "Title")] = true :=
  (validateJson_accepts_iff_amended [("Title", JValue.s "Q3")]
      [("Title", PInfo.text "Title")] (by decide) (by decide) (fun k => by simp)).mpr
    ⟨by decide, by decide, by decide, by decide⟩

/-- C2: a key-count mismatch always rejects, whatever the values, and so
does a mapping carrying an `error` key, whatever the placeholder set. -/
theorem validateJson_cardinality_error_reject (M : List (String × JValue))
    (P : List (String × PInfo))
    (h : M.length ≠ P.length ∨ "error" ∈ M.map Prod.fst) :
    validateJson M P = false := by
  rcases h with h | h
  · rw [validateJson]
    by_cases he : (M.any fun p => p.1 == "error") = true
    · simp [he]
    · simp only [Bool.not_eq_true] at he
      simp [he, h]
  · rw [validateJson]
    have he : (M.any fun p => p.1 == "error") = true := by
      simp only [List.any_eq_true]
      obtain ⟨p, hp, hpe⟩ := List.mem_map.mp h
      exact ⟨p, hp, by simp [hpe]⟩
    simp [he]

/-- Witness for C2: both rejection grounds at concrete inputs. -/
theorem validateJson_cardinality_error_reject_wit :
    validateJson [("a", JValue.s "x")] [] = false ∧
    validateJson [("error", JValue.s "Content too short")]
      [("T", PInfo.text "T")] = false :=
  ⟨validateJson_cardinality_error_reject [("a", JValue.s "x")] []
      (Or.inl (by decide)),
   validateJson_cardinality_error_reject [("error", JValue.s "Content too short")]
      [("T", PInfo.text "T")] (Or.inr (by decide))⟩

/-- C10: the key-echo rejection concerns only string values — a mapping
whose non-digit keys all carry non-string values is accepted as soon as
no key is `error`, the counts agree, no value is falsy and the canonical
hashes are pairwise distinct; and scalar duplicate detection is
case-sensitive, so two non-digit keys whose string values differ only in
letter case are both accepted. -/
theorem validateJson_nonstring_echo_case :
    (∀ (M : List (String × JValue)) (P : List (String × PInfo)),
        (∀ p ∈ M, p.1 ≠ "error") →
        M.length = P.length →
        (∀ p ∈ M, pyFalsy p.2 = false) →
        (∀ p ∈ M, pyIsDigit p.1 = false → isStrVal p.2 = false) →
        (hashList M).Nodup →
        validateJson M P = true) ∧
    validateJson [("a", JValue.s "X"), ("b", JValue.s "x")]
      [("a", PInfo.text "p"), ("b", PInfo.text "q")] = true := by
  constructor
  · intro M P h1 h2 h3 h4 h5
    rw [validateJson_iff]
    refine ⟨h1, h2, h3, ?_, h5⟩
    intro p hp hd
    have hns := h4 p hp hd
    cases hpv : p.2 <;> rw [hpv] at hns <;> simp [isStrVal] at hns ⊢ <;> simp [isEcho]
  · decide

/-- Witness for C10: a list value textually echoing its own key passes. -/
theorem validateJson_nonstring_echo_case_wit :
    validateJson [("k", JValue.arr [JValue.s "k"])] [("k", PInfo.text "z")] = true :=
  validateJson_nonstring_echo_case.1 [("k", JValue.arr [JValue.s "k"])]
    [("k", PInfo.text "z")] (by decide) (by decide) (by decide) (by decide)
    (by simp [hashList, pyIsDigit])

/-! ## Filesystem lemmas -/

theorem fsLookup_write_self (fs : FS) (n : String) (d : FileData) :
    fsLookup (fsWrite fs n d) n = some d := by
  induction fs with
  | nil => simp [fsWrite, fsLookup]
  | cons p rest ih =>
    obtain ⟨n0, d0⟩ := p
    by_cases h : (n0 == n) = true
    · simp [fsWrite, h, fsLookup]
    · simp only [Bool.not_eq_true] at h
      simp [fsWrite, h, fsLookup, ih]

theorem fsLookup_write_ne (fs : FS) (n : String) (d : FileData) (m : String)
    (h : m ≠ n) : fsLookup (fsWrite fs n d) m = fsLookup fs m := by
  induction fs with
  | nil =>
    have hy : (n == m) = false := beq_eq_false_iff_ne.mpr (Ne.symm h)
    simp [fsWrite, fsLookup, hy]
  | cons p rest ih =>
    obtain ⟨n0, d0⟩ := p
    by_cases h0 : (n0 == n) = true
    · have hn0 : n0 = n := by simpa using h0
      have h1 : (n == m) = false := beq_eq_false_iff_ne.mpr (Ne.symm h)
      have h2 : (n0 == m) = false := by rw [hn0]; exact h1
      simp [fsWrite, h0, fsLookup, h1, h2]
    · simp only [Bool.not_eq_true] at h0
      by_cases hm : (n0 == m) = true
      · simp [fsWrite, h0, fsLookup, hm]
      · simp only [Bool.not_eq_true] at hm
        simp [fsWrite, h0, fsLookup, hm, ih]

theorem fsLookup_remove_self (fs : FS) (n : String) :
    fsLookup (fsRemove fs n) n = none := by
  induction fs with
  | nil => simp [fsRemove, fsLookup]
  | cons p rest ih =>
    obtain ⟨n0, d0⟩ := p
    by_cases h : (n0 == n) = true
    · simpa [fsRemove, h] using ih
    · simp only [Bool.not_eq_true] at h
      simpa [fsRemove, fsLookup, h] using ih

theorem fsLookup_remove_ne (fs : FS) (n m : String) (h : m ≠ n) :
    fsLookup (fsRemove fs n) m = fsLookup fs m := by
  induction fs with
  | nil => simp [fsRemove, fsLookup]
  | cons p rest ih =>
    obtain ⟨n0, d0⟩ := p
    by_cases h0 : (n0 == n) = true
    · have hn0 : n0 = n := by simpa using h0
      have h2 : (n0 == m) = false := by
        rw [hn0]
        exact beq_eq_false_iff_ne.mpr (Ne.symm h)
      simpa [fsRemove, h0, fsLookup, h2] using ih
    · simp only [Bool.not_eq_true] at h0
      by_cases hm : (n0 == m) = true
      · simp [fsRemove, h0, fsLookup, hm]
      · simp only [Bool.not_eq_true] at hm
        simpa [fsRemove, fsLookup, h0, hm] using ih

/-! ## Claims about the renderer -/

/-- C4: the list branch pairs existing paragraphs with items in order
(first run overwritten, extra runs blanked), appends one new
level-0 paragraph per surplus item, and blanks every leftover
paragraph; in particular 3 items against 2 paragraphs append exactly
one paragraph, at indentation level 0. -/
theorem listApply_walk_append_blank :
    (∀ (ps : List Paragraph) (xs : List String),
        listApplyGo ps xs =
          List.zipWith applyItemPara ps xs ++
            (if ps.length ≤ xs.length then (xs.drop ps.length).map appendedPara
             else (ps.drop xs.length).map blankParagraph)) ∧
    (∀ (p1 p2 : Paragraph) (a b c : String),
        listApplyGo [p1, p2] [a, b, c] =
          [applyItemPara p1 a, applyItemPara p2 b, appendedPara c]) ∧
    (∀ x : String, (appendedPara x).level = 0) := by
  refine ⟨?_, ?_, fun x => rfl⟩
  · intro ps
    induction ps with
    | nil =>
      intro xs
      induction xs with
      | nil => simp [listApplyGo]
      | cons x xs ih => simp [listApplyGo, ih]
    | cons p ps ih =>
      intro xs
      cases xs with
      | nil => simp [listApplyGo]
      | cons x xs =>
        simp only [listApplyGo, List.zipWith_cons_cons, ih xs, List.length_cons,
          List.drop_succ_cons, List.cons_append]
        by_cases hle : ps.length ≤ xs.length
        · simp [hle]
        · simp [hle]
  · intro p1 p2 a b c
    simp [listApplyGo]

/-- C5: the structural kind is re-derived from the live shape (more
than one paragraph, a positive indentation level, or bullet /
auto-numbering markup), and mismatches are coerced: a string aimed at a
structurally list-like shape is applied as a one-item list, and a list
aimed at a structurally plain shape is joined with spaces and applied
as a string. -/
theorem renderer_structural_coercion :
    (∀ tf : TextFrame,
        isListShape tf =
          (decide (tf.paragraphs.length > 1)
            || tf.paragraphs.any (fun p => decide (p.level > 0))
            || tf.paragraphs.any Paragraph.buChar
            || tf.paragraphs.any Paragraph.buAutoNum)) ∧
    (∀ (tf : TextFrame) (key s : String),
        isListShape tf = true →
        applyValueToTF tf key (JValue.s s) = some ⟨listApplyGo tf.paragraphs [s]⟩) ∧
    (∀ (tf : TextFrame) (key : String) (items : List JValue) (ss : List String),
        isListShape tf = false →
        asStrings items = some ss →
        applyValueToTF tf key (JValue.arr items) =
          some (stringApply tf key (String.intercalate " " ss))) := by
  refine ⟨fun tf => rfl, ?_, ?_⟩
  · intro tf key s h
    simp [applyValueToTF, unwrapValue, coerceValue, h, dispatchValue, asStrings]
  · intro tf key items ss h hss
    simp [applyValueToTF, unwrapValue, coerceValue, h, hss, dispatchValue]

/-- Witness for C5 at concrete shapes: a two-paragraph (list-like)
shape receiving a string, and a one-paragraph plain shape receiving a
two-item list. -/
theorem renderer_structural_coercion_wit :
    isListShape ⟨[⟨[⟨"k", 0⟩], 0, false, false⟩, ⟨[⟨"x", 1⟩], 0, false, false⟩]⟩ = true ∧
    applyValueToTF ⟨[⟨[⟨"k", 0⟩], 0, false, false⟩, ⟨[⟨"x", 1⟩], 0, false, false⟩]⟩ "k"
        (JValue.s "v") =
      some ⟨listApplyGo [⟨[⟨"k", 0⟩], 0, false, false⟩, ⟨[⟨"x", 1⟩], 0, false, false⟩] ["v"]⟩ ∧
    isListShape ⟨[⟨[⟨"k", 0⟩], 0, false, false⟩]⟩ = false ∧
    applyValueToTF ⟨[⟨[⟨"k", 0⟩], 0, false, false⟩]⟩ "k"
        (JValue.arr [JValue.s "a", JValue.s "b"]) =
      some (stringApply ⟨[⟨[⟨"k", 0⟩], 0, false, false⟩]⟩ "k" (String.intercalate " " ["a", "b"])) :=
  ⟨by decide,
   renderer_structural_coercion.2.1 _ "k" "v" (by decide),
   by decide,
   renderer_structural_coercion.2.2 _ "k" [JValue.s "a", JValue.s "b"] ["a", "b"]
     (by decide) (by decide)⟩

/-- C6: applying a string value rewrites exactly the runs whose trimmed
text equals the key (keeping each run's style), leaves every other run
untouched, and preserves the paragraph structure; and this is the
branch a plain shape's matched value reaches. -/
theorem stringApply_run_replacement (tf : TextFrame) (key newValue : String) :
    (stringApply tf key newValue).paragraphs.length = tf.paragraphs.length ∧
    (∀ (i : Nat) (p : Paragraph), tf.paragraphs[i]? = some p →
        (stringApply tf key newValue).paragraphs[i]? =
          some ⟨p.runs.map fun r =>
                  if pyStrip r.text == key then ⟨newValue, r.style⟩ else r,
                p.level, p.buChar, p.buAutoNum⟩) ∧
    (isListShape tf = false →
        applyValueToTF tf key (JValue.s newValue) = some (stringApply tf key newValue)) := by
  refine ⟨by simp [stringApply], ?_, ?_⟩
  · intro i p h
    simp [stringApply, List.getElem?_map, h]
  · intro h
    simp [applyValueToTF, unwrapValue, coerceValue, h, dispatchValue]

/-- Witness for C6: one paragraph with a matching and a non-matching
run; the match is rewritten keeping its style, the other run is
untouched. -/
theorem stringApply_run_replacement_wit :
    (stringApply ⟨[⟨[⟨" k ", 5⟩, ⟨"other", 7⟩], 0, false, false⟩]⟩ "k" "v").paragraphs[0]? =
      some ⟨[⟨"v", 5⟩, ⟨"other", 7⟩], 0, false, false⟩ := by
  have h := (stringApply_run_replacement
      ⟨[⟨[⟨" k ", 5⟩, ⟨"other", 7⟩], 0, false, false⟩]⟩ "k" "v").2.1 0
      ⟨[⟨" k ", 5⟩, ⟨"other", 7⟩], 0, false, false⟩ (by decide)
  rw [h]
  decide

/-- C8: rendering loads the template, never writes back to its path,
and saves the artifact under the fresh temporary name: the input file's
content is unchanged and the returned path differs from the input path. -/
theorem updateTemplatePlaceholders_fresh_output (fs : FS) (pptx_path : String)
    (slide_index : Nat) (replacements : List (String × JValue)) (freshName : String)
    (fs2 : FS) (out : String)
    (hfresh : fsLookup fs freshName = none)
    (h : updateTemplatePlaceholders fs pptx_path slide_index replacements freshName =
      some (fs2, out)) :
    out ≠ pptx_path ∧ fsLookup fs2 pptx_path = fsLookup fs pptx_path := by
  unfold updateTemplatePlaceholders at h
  cases hl : fsLookup fs pptx_path with
  | none =>
    simp only [hl] at h
    exact Option.noConfusion h
  | some fd =>
    simp only [hl] at h
    cases fd with
    | image => simp at h
    | blob => simp at h
    | pptx slides =>
      cases hs : slides[slide_index]? with
      | none =>
        simp only [hs] at h
        exact Option.noConfusion h
      | some slide =>
        simp only [hs] at h
        cases hu : updateSlide replacements slide with
        | none =>
          simp only [hu] at h
          exact Option.noConfusion h
        | some slide2 =>
          simp only [hu, Option.some_inj, Prod.mk.injEq] at h
          obtain ⟨hfs2, hout⟩ := h
          have hne : pptx_path ≠ freshName := by
            intro he
            rw [he, hfresh] at hl
            exact absurd hl (by simp)
          constructor
          · rw [← hout]
            exact fun he => hne he.symm
          · rw [← hfs2, fsLookup_write_ne fs freshName _ pptx_path hne]
            exact hl

/-- Witness for C8 at a concrete one-slide template. -/
theorem updateTemplatePlaceholders_fresh_output_wit :
    ("f" : String) ≠ "t" ∧
    fsLookup [("t", FileData.pptx [[]]), ("f", FileData.pptx [[]])] "t" =
      fsLookup [("t", FileData.pptx [[]])] "t" :=
  updateTemplatePlaceholders_fresh_output [("t", FileData.pptx [[]])] "t" 0 [] "f"
    [("t", FileData.pptx [[]]), ("f", FileData.pptx [[]])] "f" (by decide) (by decide)

/-- C9: the rendered document is a function of the loaded document and
the mapping alone — two runs on the same document with the same mapping
store the same output document, whatever filesystems, input paths and
temporary output names are involved. -/
theorem render_deterministic (fs1 fs2 : FS) (p1 p2 : String) (slide_index : Nat)
    (replacements : List (String × JValue)) (f1 f2 : String)
    (fs1' fs2' : FS) (o1 o2 : String)
    (hdoc : fsLookup fs1 p1 = fsLookup fs2 p2)
    (h1 : updateTemplatePlaceholders fs1 p1 slide_index replacements f1 = some (fs1', o1))
    (h2 : updateTemplatePlaceholders fs2 p2 slide_index replacements f2 = some (fs2', o2)) :
    fsLookup fs1' o1 = fsLookup fs2' o2 := by
  unfold updateTemplatePlaceholders at h1 h2
  cases hl : fsLookup fs1 p1 with
  | none =>
    simp only [hl] at h1
    exact Option.noConfusion h1
  | some fd =>
    rw [hl] at hdoc
    simp only [hl] at h1
    simp only [← hdoc] at h2
    cases fd with
    | image => simp at h1
    | blob => simp at h1
    | pptx slides =>
      cases hs : slides[slide_index]? with
      | none =>
        simp only [hs] at h1
        exact Option.noConfusion h1
      | some slide =>
        simp only [hs] at h1 h2
        cases hu : updateSlide replacements slide with
        | none =>
          simp only [hu] at h1
          exact Option.noConfusion h1
        | some slide2 =>
          simp only [hu, Option.some_inj, Prod.mk.injEq] at h1 h2
          obtain ⟨hfs1, ho1⟩ := h1
          obtain ⟨hfs2, ho2⟩ := h2
          rw [← hfs1, ← hfs2, ← ho1, ← ho2]
          rw [fsLookup_write_self, fsLookup_write_self]

/-- Witness for C9: the same empty-slide document rendered from two
different paths and filesystems with different temporary names. -/
theorem render_deterministic_wit :
    fsLookup [("a", FileData.pptx [[]]), ("f1", FileData.pptx [[]])] "f1" =
      fsLookup [("b", FileData.pptx [[]]), ("f2", FileData.pptx [[]])] "f2" :=
  render_deterministic [("a", FileData.pptx [[]])] [("b", FileData.pptx [[]])] "a" "b" 0 []
    "f1" "f2" [("a", FileData.pptx [[]]), ("f1", FileData.pptx [[]])]
    [("b", FileData.pptx [[]]), ("f2", FileData.pptx [[]])] "f1" "f2"
    (by decide) (by decide) (by decide)

/-! ## Claim about extraction (C7) -/

/-- The key a shape contributes to the placeholder dict, if any. -/
def shapeKey (sh : Shape) : Option String :=
  match sh.tf with
  | none => none
  | some tf =>
    if pyStrip (tfText tf) == "" then none else some (pyStrip (tfText tf))

/-- Spec-side description of dict key order: traversal order with later
duplicates dropped. -/
def firstDedupGo (seen : List String) : List String → List String
  | [] => []
  | x :: xs => if x ∈ seen then firstDedupGo seen xs else x :: firstDedupGo (seen ++ [x]) xs

/-- First-occurrence deduplication of a key list. -/
def firstDedup (l : List String) : List String := firstDedupGo [] l

theorem dictInsert_keys (m : List (String × PInfo)) (k : String) (v : PInfo) :
    (dictInsert m k v).map Prod.fst =
      if k ∈ m.map Prod.fst then m.map Prod.fst else m.map Prod.fst ++ [k] := by
  induction m with
  | nil => simp [dictInsert]
  | cons q rest ih =>
    obtain ⟨k0, v0⟩ := q
    by_cases h : (k0 == k) = true
    · have hk : k0 = k := by simpa using h
      simp [dictInsert, h, hk]
    · simp only [Bool.not_eq_true] at h
      have hk : ¬k = k0 := by
        intro he
        rw [he] at h
        simp at h
      by_cases hm : k ∈ rest.map Prod.fst
      · simp [dictInsert, h, ih, hm, hk]
      · simp [dictInsert, h, ih, hm, hk]

theorem mem_dictInsert_self (m : List (String × PInfo)) (k : String) (v : PInfo) :
    (k, v) ∈ dictInsert m k v := by
  induction m with
  | nil => simp [dictInsert]
  | cons q rest ih =>
    obtain ⟨k0, v0⟩ := q
    by_cases h : (k0 == k) = true
    · simp [dictInsert, h]
    · simp only [Bool.not_eq_true] at h
      simp [dictInsert, h, ih]

theorem mem_dictInsert_of_ne (m : List (String × PInfo)) (k' : String) (v' : PInfo)
    (p : String × PInfo) (hp : p ∈ m) (hne : p.1 ≠ k') : p ∈ dictInsert m k' v' := by
  induction m with
  | nil => cases hp
  | cons q rest ih =>
    obtain ⟨k0, v0⟩ := q
    rcases List.mem_cons.mp hp with rfl | hp'
    · have h : (k0 == k') = false := by
        simp only [beq_eq_false_iff_ne]
        exact hne
      simp [dictInsert, h]
    · by_cases h : (k0 == k') = true
      · simp only [dictInsert, h, ite_true]
        exact List.mem_cons_of_mem _ hp'
      · simp only [Bool.not_eq_true] at h
        simp only [dictInsert, h, Bool.false_eq_true, ite_false]
        exact List.mem_cons_of_mem _ (ih hp')

theorem mem_dictInsert (m : List (String × PInfo)) (k : String) (v : PInfo)
    (p : String × PInfo) (hp : p ∈ dictInsert m k v) : p ∈ m ∨ p = (k, v) := by
  induction m with
  | nil =>
    simp [dictInsert] at hp
    exact Or.inr hp
  | cons q rest ih =>
    obtain ⟨k0, v0⟩ := q
    by_cases h : (k0 == k) = true
    · simp only [dictInsert, h, ite_true] at hp
      rcases List.mem_cons.mp hp with rfl | hp'
      · exact Or.inr rfl
      · exact Or.inl (List.mem_cons_of_mem _ hp')
    · simp only [Bool.not_eq_true] at h
      simp only [dictInsert, h, Bool.false_eq_true, ite_false] at hp
      rcases List.mem_cons.mp hp with rfl | hp'
      · exact Or.inl (List.mem_cons_self _ _)
      · rcases ih hp' with hm | he
        · exact Or.inl (List.mem_cons_of_mem _ hm)
        · exact Or.inr he

theorem extractSlideGo_keys (slide : List Shape) (acc : List (String × PInfo)) :
    (extractSlideGo acc slide).map Prod.fst =
      acc.map Prod.fst ++ firstDedupGo (acc.map Prod.fst) (slide.filterMap shapeKey) := by
  induction slide generalizing acc with
  | nil => simp [extractSlideGo, firstDedupGo]
  | cons sh rest ih =>
    cases htf : sh.tf with
    | none =>
      have hsk : shapeKey sh = none := by simp [shapeKey, htf]
      simp [extractSlideGo, htf, List.filterMap_cons, hsk, ih]
    | some tf =>
      by_cases hk : (pyStrip (tfText tf) == "") = true
      · have hsk : shapeKey sh = none := by simp [shapeKey, htf, hk]
        simp [extractSlideGo, htf, hk, List.filterMap_cons, hsk, ih]
      · simp only [Bool.not_eq_true] at hk
        have hsk : shapeKey sh = some (pyStrip (tfText tf)) := by
          simp [shapeKey, htf, hk]
        simp only [extractSlideGo, htf, hk, Bool.false_eq_true, ite_false,
          List.filterMap_cons, hsk]
        rw [ih]
        rw [dictInsert_keys]
        by_cases hmem : pyStrip (tfText tf) ∈ acc.map Prod.fst
        · simp [hmem, firstDedupGo]
        · simp [hmem, firstDedupGo, List.append_assoc]

theorem extractSlideGo_keys_ne (slide : List Shape) (acc : List (String × PInfo))
    (hacc : ∀ p ∈ acc, p.1 ≠ "") : ∀ p ∈ extractSlideGo acc slide, p.1 ≠ "" := by
  induction slide generalizing acc with
  | nil => exact hacc
  | cons sh rest ih =>
    cases htf : sh.tf with
    | none =>
      simp only [extractSlideGo, htf]
      exact ih acc hacc
    | some tf =>
      by_cases hk : (pyStrip (tfText tf) == "") = true
      · simp only [extractSlideGo, htf, hk, ite_true]
        exact ih acc hacc
      · simp only [Bool.not_eq_true] at hk
        simp only [extractSlideGo, htf, hk, Bool.false_eq_true, ite_false]
        apply ih
        intro p hp
        rcases mem_dictInsert _ _ _ p hp with hm | he
        · exact hacc p hm
        · rw [he]
          simp only [ne_eq]
          intro hcon
          rw [hcon] at hk
          simp at hk

theorem extractSlideGo_preserve (slide : List Shape) (acc : List (String × PInfo))
    (p : String × PInfo) (hp : p ∈ acc)
    (hnk : ∀ k ∈ slide.filterMap shapeKey, p.1 ≠ k) : p ∈ extractSlideGo acc slide := by
  induction slide generalizing acc with
  | nil => exact hp
  | cons sh rest ih =>
    cases htf : sh.tf with
    | none =>
      have hsk : shapeKey sh = none := by simp [shapeKey, htf]
      simp only [extractSlideGo, htf]
      apply ih acc hp
      intro k hk
      exact hnk k (by simp [List.filterMap_cons, hsk, hk])
    | some tf =>
      by_cases hk : (pyStrip (tfText tf) == "") = true
      · have hsk : shapeKey sh = none := by simp [shapeKey, htf, hk]
        simp only [extractSlideGo, htf, hk, ite_true]
        apply ih acc hp
        intro k hkm
        exact hnk k (by simp [List.filterMap_cons, hsk, hkm])
      · simp only [Bool.not_eq_true] at hk
        have hsk : shapeKey sh = some (pyStrip (tfText tf)) := by
          simp [shapeKey, htf, hk]
        simp only [extractSlideGo, htf, hk, Bool.false_eq_true, ite_false]
        apply ih
        · apply mem_dictInsert_of_ne _ _ _ _ hp
          exact hnk _ (by simp [List.filterMap_cons, hsk])
        · intro k hkm
          exact hnk k (by simp [List.filterMap_cons, hsk, hkm])

theorem extractSlideGo_mem (slide : List Shape) :
    ∀ acc : List (String × PInfo), (slide.filterMap shapeKey).Nodup →
      ∀ sh ∈ slide, ∀ tf : TextFrame, sh.tf = some tf → pyStrip (tfText tf) ≠ "" →
        (pyStrip (tfText tf), classifyShape tf) ∈ extractSlideGo acc slide := by
  induction slide with
  | nil =>
    intro acc _ sh hsh
    cases hsh
  | cons sh0 rest ih =>
    intro acc hnodup sh hsh tf htf hk
    have hkb : (pyStrip (tfText tf) == "") = false := by
      simp only [beq_eq_false_iff_ne]
      exact hk
    rcases List.mem_cons.mp hsh with rfl | hmem
    · have hsk : shapeKey sh = some (pyStrip (tfText tf)) := by
        simp [shapeKey, htf, hkb]
      simp only [extractSlideGo, htf, hkb, Bool.false_eq_true, ite_false]
      apply extractSlideGo_preserve
      · exact mem_dictInsert_self _ _ _
      · intro k hkm
        simp only [List.filterMap_cons, hsk] at hnodup
        have hnotin := (List.nodup_cons.mp hnodup).1
        show pyStrip (tfText tf) ≠ k
        intro he
        rw [he] at hnotin
        exact hnotin hkm
    · cases htf0 : sh0.tf with
      | none =>
        have hsk : shapeKey sh0 = none := by simp [shapeKey, htf0]
        simp only [extractSlideGo, htf0]
        apply ih acc _ sh hmem tf htf hk
        rw [List.filterMap_cons, hsk] at hnodup
        exact hnodup
      | some tf0 =>
        by_cases hk0 : (pyStrip (tfText tf0) == "") = true
        · have hsk : shapeKey sh0 = none := by simp [shapeKey, htf0, hk0]
          simp only [extractSlideGo, htf0, hk0, ite_true]
          apply ih acc _ sh hmem tf htf hk
          rw [List.filterMap_cons, hsk] at hnodup
          exact hnodup
        · simp only [Bool.not_eq_true] at hk0
          have hsk : shapeKey sh0 = some (pyStrip (tfText tf0)) := by
            simp [shapeKey, htf0, hk0]
          simp only [extractSlideGo, htf0, hk0, Bool.false_eq_true, ite_false]
          apply ih _ _ sh hmem tf htf hk
          rw [List.filterMap_cons, hsk] at hnodup
          exact (List.nodup_cons.mp hnodup).2

/-- C7: extraction reads the slide at the given index; every produced
key is non-empty (the shape's full trimmed text); keys appear in shape
traversal order (first occurrence wins on duplicates); and, when keys
do not collide, each qualifying shape contributes an entry classified
as `list` exactly when some paragraph is indented or starts with the
bullet glyph — with the trimmed non-empty paragraph texts as items, in
paragraph order — and as `text` with the shape's trimmed text
otherwise. -/
theorem extraction_spec :
    (∀ (fs : FS) (path : String) (idx : Nat) (result : List (String × PInfo)),
        list_text_boxes fs path idx = some result →
        ∃ slides slide, fsLookup fs path = some (FileData.pptx slides) ∧
          slides[idx]? = some slide ∧ result = extractSlide slide) ∧
    (∀ slide : List Shape, ∀ p ∈ extractSlide slide, p.1 ≠ "") ∧
    (∀ slide : List Shape,
        (extractSlide slide).map Prod.fst = firstDedup (slide.filterMap shapeKey)) ∧
    (∀ slide : List Shape, (slide.filterMap shapeKey).Nodup →
        ∀ sh ∈ slide, ∀ tf : TextFrame, sh.tf = some tf → pyStrip (tfText tf) ≠ "" →
          (pyStrip (tfText tf),
            if tf.paragraphs.any
                (fun p => decide (p.level > 0) || pyStartsWith (pyStrip (paraText p)) "•") then
              PInfo.list ((tf.paragraphs.map fun p => pyStrip (paraText p)).filter
                fun s => !(s == ""))
            else PInfo.text (pyStrip (tfText tf))) ∈ extractSlide slide) := by
  refine ⟨?_, ?_, ?_, ?_⟩
  · intro fs path idx result h
    unfold list_text_boxes at h
    cases hl : fsLookup fs path with
    | none =>
      simp only [hl] at h
      exact Option.noConfusion h
    | some fd =>
      simp only [hl] at h
      cases fd with
      | image => simp at h
      | blob => simp at h
      | pptx slides =>
        cases hs : slides[idx]? with
        | none =>
          simp only [hs] at h
          exact Option.noConfusion h
        | some slide =>
          simp only [hs, Option.map_some', Option.some_inj] at h
          exact ⟨slides, slide, rfl, hs, h.symm⟩
  · intro slide
    exact extractSlideGo_keys_ne slide [] (by simp)
  · intro slide
    have h := extractSlideGo_keys slide []
    simpa [firstDedup] using h
  · intro slide hnodup sh hsh tf htf hk
    have h := extractSlideGo_mem slide [] hnodup sh hsh tf htf hk
    rw [classifyShape] at h
    exact h

/-- Witness for C7 at a concrete two-shape slide (one plain, one
bulleted). -/
theorem extraction_spec_wit :
    ("Title", PInfo.text "Title") ∈
      extractSlide [⟨some ⟨[⟨[⟨"Title", 0⟩], 0, false, false⟩]⟩⟩,
        ⟨some ⟨[⟨[⟨"• a", 0⟩], 1, false, false⟩]⟩⟩] := by
  have h := extraction_spec.2.2.2
    [⟨some ⟨[⟨[⟨"Title", 0⟩], 0, false, false⟩]⟩⟩,
     ⟨some ⟨[⟨[⟨"• a", 0⟩], 1, false, false⟩]⟩⟩] (by decide)
    ⟨some ⟨[⟨[⟨"Title", 0⟩], 0, false, false⟩]⟩⟩ (by decide)
    ⟨[⟨[⟨"Title", 0⟩], 0, false, false⟩]⟩ rfl (by decide)
  have he : (pyStrip (tfText ⟨[⟨[⟨"Title", 0⟩], 0, false, false⟩]⟩),
      if (⟨[⟨[⟨"Title", 0⟩], 0, false, false⟩]⟩ : TextFrame).paragraphs.any
          (fun p => decide (p.level > 0) || pyStartsWith (pyStrip (paraText p)) "•") then
        PInfo.list (((⟨[⟨[⟨"Title", 0⟩], 0, false, false⟩]⟩ : TextFrame).paragraphs.map
          fun p => pyStrip (paraText p)).filter fun s => !(s == ""))
      else PInfo.text (pyStrip (tfText ⟨[⟨[⟨"Title", 0⟩], 0, false, false⟩]⟩))) =
      ("Title", PInfo.text "Title") := by decide
  rw [he] at h
  exact h

/-! ## Claim about the pipeline's temporary files (C3) -/

theorem updateTemplatePlaceholders_shape (fs : FS) (path : String) (idx : Nat)
    (repl : List (String × JValue)) (fresh : String) (fs' : FS) (out : String)
    (h : updateTemplatePlaceholders fs path idx repl fresh = some (fs', out)) :
    out = fresh ∧ ∃ d : FileData, fs' = fsWrite fs fresh d := by
  unfold updateTemplatePlaceholders at h
  cases hl : fsLookup fs path with
  | none =>
    simp only [hl] at h
    exact Option.noConfusion h
  | some fd =>
    simp only [hl] at h
    cases fd with
    | image => simp at h
    | blob => simp at h
    | pptx slides =>
      cases hs : slides[idx]? with
      | none =>
        simp only [hs] at h
        exact Option.noConfusion h
      | some slide =>
        simp only [hs] at h
        cases hu : updateSlide repl slide with
        | none =>
          simp only [hu] at h
          exact Option.noConfusion h
        | some slide2 =>
          simp only [hu, Option.some_inj, Prod.mk.injEq] at h
          exact ⟨h.2.symm, _, h.1.symm⟩

/-- C3 counterexample: a fully successful run of the pipeline leaves
the downloaded reference image file on disk — no exit path ever
deletes it, so the stated all-temporaries cleanup contract fails. -/
theorem generate_ppt_imageLeak_cex :
    (generate_ppt
        ⟨some (FileData.pptx [[⟨some ⟨[⟨[⟨"Title", 0⟩], 0, false, false⟩]⟩⟩]]),
          true, some [("Title", JValue.s "Q3")], "t", "i", "r", "p"⟩ []).1 =
      Except.ok (GenResult.fileUrl "generated_files/p") ∧
    fsLookup (generate_ppt
        ⟨some (FileData.pptx [[⟨some ⟨[⟨[⟨"Title", 0⟩], 0, false, false⟩]⟩⟩]]),
          true, some [("Title", JValue.s "Q3")], "t", "i", "r", "p"⟩ []).2 "i" =
      some FileData.image := by
  exact ⟨by rfl, by rfl⟩

/-- C3 (amended): on the two structured exits the fetched template is
deleted (and on success the pre-publish render too), but the fetched
reference image is never deleted — it remains on disk on every exit
that reaches the image download, including the malformed-reply exit,
where the template also remains. -/
theorem generate_ppt_cleanup_amended (env : GenEnv) (fs : FS)
    (hTI : env.tmpImage ≠ env.tmpTemplate)
    (hRI : env.tmpImage ≠ env.tmpRender)
    (hPI : env.tmpImage ≠ publicPath env) :
    (∀ res, (generate_ppt env fs).1 = Except.ok res →
        fsLookup (generate_ppt env fs).2 env.tmpImage = some FileData.image) ∧
    ((generate_ppt env fs).1 = Except.ok GenResult.errJson →
        fsLookup (generate_ppt env fs).2 env.tmpTemplate = none) ∧
    (∀ u, (generate_ppt env fs).1 = Except.ok (GenResult.fileUrl u) →
        fsLookup (generate_ppt env fs).2 env.tmpTemplate = none ∧
        fsLookup (generate_ppt env fs).2 env.tmpRender = none) ∧
    (∀ td tb, env.templateResp = some td →
        list_text_boxes (fsWrite fs env.tmpTemplate td) env.tmpTemplate 0 = some tb →
        env.imageOk = true → env.oracleReply = none →
        (generate_ppt env fs).1 = Except.error () ∧
        fsLookup (generate_ppt env fs).2 env.tmpTemplate = some td ∧
        fsLookup (generate_ppt env fs).2 env.tmpImage = some FileData.image) := by
  obtain ⟨tResp, imgOk, reply, tT, tI, tR, pN⟩ := env
  replace hTI : tI ≠ tT := hTI
  replace hRI : tI ≠ tR := hRI
  replace hPI : tI ≠ "generated_files/" ++ pN := hPI
  cases tResp with
  | none =>
    refine ⟨fun res h => ?_, fun h => ?_, fun u h => ?_, fun td tb h1 h2 h3 h4 => ?_⟩
    · simp [generate_ppt] at h
    · simp [generate_ppt] at h
    · simp [generate_ppt] at h
    · exact Option.noConfusion h1
  | some td0 =>
    cases hltb : list_text_boxes (fsWrite fs tT td0) tT 0 with
    | none =>
      refine ⟨fun res h => ?_, fun h => ?_, fun u h => ?_, fun td tb h1 h2 h3 h4 => ?_⟩
      · simp [generate_ppt, hltb] at h
      · simp [generate_ppt, hltb] at h
      · simp [generate_ppt, hltb] at h
      · injection h1 with he
        subst he
        rw [h2] at hltb
        exact Option.noConfusion hltb
    | some tb0 =>
      cases imgOk with
      | false =>
        refine ⟨fun res h => ?_, fun h => ?_, fun u h => ?_, fun td tb h1 h2 h3 h4 => ?_⟩
        · simp [generate_ppt, hltb] at h
        · simp [generate_ppt, hltb] at h
        · simp [generate_ppt, hltb] at h
        · exact Bool.noConfusion h3
      | true =>
        cases reply with
        | none =>
          refine ⟨fun res h => ?_, fun h => ?_, fun u h => ?_, fun td tb h1 h2 h3 h4 => ?_⟩
          · simp [generate_ppt, hltb] at h
          · simp [generate_ppt, hltb] at h
          · simp [generate_ppt, hltb] at h
          · injection h1 with he
            subst he
            refine ⟨by simp [generate_ppt, hltb], ?_, ?_⟩
            · simp only [generate_ppt, hltb]
              simp only [Bool.true_eq_false, if_false]
              rw [fsLookup_write_ne _ _ _ _ (Ne.symm hTI), fsLookup_write_self]
            · simp only [generate_ppt, hltb]
              simp only [Bool.true_eq_false, if_false]
              rw [fsLookup_write_self]
        | some cj =>
          by_cases hv : validateJson cj tb0 = false
          · refine ⟨fun res h => ?_, fun h => ?_, fun u h => ?_, fun td tb h1 h2 h3 h4 => ?_⟩
            · simp [generate_ppt, hltb, hv]
              rw [fsLookup_remove_ne _ _ _ hTI, fsLookup_write_self]
            · simp [generate_ppt, hltb, hv]
              exact fsLookup_remove_self _ _
            · simp [generate_ppt, hltb, hv] at h
            · exact Option.noConfusion h4
          · simp only [Bool.not_eq_false] at hv
            cases hup : updateTemplatePlaceholders
                (fsWrite (fsWrite fs tT td0) tI FileData.image) tT 0 cj tR with
            | none =>
              refine ⟨fun res h => ?_, fun h => ?_, fun u h => ?_, fun td tb h1 h2 h3 h4 => ?_⟩
              · simp [generate_ppt, hltb, hv, hup] at h
              · simp [generate_ppt, hltb, hv, hup] at h
              · simp [generate_ppt, hltb, hv, hup] at h
              · exact Option.noConfusion h4
            | some pr =>
              obtain ⟨fs3, outP⟩ := pr
              obtain ⟨houtP, d, hfs3⟩ :=
                updateTemplatePlaceholders_shape _ _ _ _ _ _ _ hup
              subst houtP
              subst hfs3
              refine ⟨fun res h => ?_, fun h => ?_, fun u h => ?_, fun td tb h1 h2 h3 h4 => ?_⟩
              · simp [generate_ppt, hltb, hv, hup, publicPath]
                rw [fsLookup_remove_ne _ _ _ hTI, fsLookup_remove_ne _ _ _ hRI,
                  fsLookup_write_ne _ _ _ _ hPI, fsLookup_write_ne _ _ _ _ hRI,
                  fsLookup_write_self]
              · simp [generate_ppt, hltb, hv, hup] at h
              · refine ⟨?_, ?_⟩
                · simp [generate_ppt, hltb, hv, hup, publicPath]
                  exact fsLookup_remove_self _ _
                · simp [generate_ppt, hltb, hv, hup, publicPath]
                  by_cases hTR : outP = tT
                  · rw [hTR]
                    exact fsLookup_remove_self _ _
                  · rw [fsLookup_remove_ne _ _ _ hTR]
                    exact fsLookup_remove_self _ _
              · exact Option.noConfusion h4

/-- Witness for the amended C3 at the concrete successful pipeline run. -/
theorem generate_ppt_cleanup_amended_wit :
    fsLookup (generate_ppt
        ⟨some (FileData.pptx [[⟨some ⟨[⟨[⟨"Title", 0⟩], 0, false, false⟩]⟩⟩]]),
          true, some [("Title", JValue.s "Q3")], "t", "i", "r", "p"⟩ []).2 "i" =
      some FileData.image :=
  (generate_ppt_cleanup_amended
      ⟨some (FileData.pptx [[⟨some ⟨[⟨[⟨"Title", 0⟩], 0, false, false⟩]⟩⟩]]),
        true, some [("Title", JValue.s "Q3")], "t", "i", "r", "p"⟩ []
      (by decide) (by decide) (by decide)).1
    (GenResult.fileUrl "generated_files/p") (by rfl)
